import Mathlib

/-!
Verification of the core algorithms of a stock-forecasting pipeline:
a trading-strategy simulator (`trading_strategy.py`), a metric/selection
harness (`model_evaluator.py`), a statistical model's fallback chain
(`models/arima_model.py`) and a tree-ensemble model's recursive rollout
(`models/ml_model.py`).

Prices and metric values are embedded as rationals (`ℚ`).  Rational
division by zero is `0` in Lean; the pipeline only ever divides by
forecast prices (positive by the data model: prices are positive reals)
and by a positive investment amount, so the convention is never hit in
the verified statements.  `RMSE` is the real square root of the rational
mean squared error.  External library fits (statsmodels ARIMA /
ExponentialSmoothing, sklearn StandardScaler / RandomForest) are
abstracted as oracle parameters: the claims under verification are about
how the surrounding code drives those fits, not about their numerics.
-/

namespace StockPipeline

/-! ## trading_strategy.py -/

/-- The action recorded on an executed trade.  The source stores the
strings `'Купить'`, `'Продать'` and `'Продать (конец периода)'`;
they are embedded as a three-constructor inductive. -/
inductive TradeAction
  | buy
  | sell
  | sellEndOfPeriod
deriving DecidableEq, Repr

/-- One executed trade, as appended to the `trades` list:
`{'day': ..., 'action': ..., 'price': ..., 'shares': ...}`. -/
structure Trade where
  day : ℕ
  action : TradeAction
  price : ℚ
  shares : ℚ
deriving DecidableEq, Repr

/-- The dictionary returned by `calculate_investment_strategy`.
(The early zero-trade return leaves out the `buy_points` / `sell_points`
keys in the source; here they are the empty lists, which is what they
would contain.) -/
structure StrategyResult where
  recommendations : List Trade
  total_profit : ℚ
  profit_percentage : ℚ
  final_amount : ℚ
  trades_count : ℕ
  buy_points : List (ℕ × ℚ)
  sell_points : List (ℕ × ℚ)
deriving DecidableEq, Repr

/-- `find_local_extrema`: for `i in range(1, len(forecast) - 1)`,
`i` is a local minimum when `forecast[i] < forecast[i-1]` and
`forecast[i] < forecast[i+1]`, recorded as `(i + 1, forecast[i])`;
a local maximum symmetrically with `>`.  Returns
`(local_minima, local_maxima)`. -/
def find_local_extrema (forecast : List ℚ) : List (ℕ × ℚ) × List (ℕ × ℚ) :=
  let n := forecast.length
  let minima := (List.range n).filterMap fun i =>
    if 1 ≤ i ∧ i + 1 < n ∧ forecast.getD i 0 < forecast.getD (i - 1) 0 ∧
        forecast.getD i 0 < forecast.getD (i + 1) 0 then
      some (i + 1, forecast.getD i 0)
    else none
  let maxima := (List.range n).filterMap fun i =>
    if 1 ≤ i ∧ i + 1 < n ∧ forecast.getD (i - 1) 0 < forecast.getD i 0 ∧
        forecast.getD (i + 1) 0 < forecast.getD i 0 then
      some (i + 1, forecast.getD i 0)
    else none
  (minima, maxima)

/-- A merged event `(day, price, action)` as placed into `all_events`. -/
inductive EventAction
  | buy
  | sell
deriving DecidableEq, Repr

abbrev Event := ℕ × ℚ × EventAction

/-- Insert an event into a day-sorted list, before the first event whose
day is not earlier.  Python's `list.sort` is stable; stability is
irrelevant here because the pipeline's event days are pairwise
distinct (each index of the forecast yields at most one event). -/
def insertEvent (e : Event) : List Event → List Event
  | [] => [e]
  | x :: xs => if e.1 ≤ x.1 then e :: x :: xs else x :: insertEvent e xs

/-- `all_events.sort(key=lambda x: x[0])`: sort by day. -/
def sortEvents : List Event → List Event
  | [] => []
  | x :: xs => insertEvent x (sortEvents xs)

/-- The merged, day-sorted event list built from the detected extrema:
`buy_points` is the first component of `find_local_extrema`,
`sell_points` the second. -/
def strategyEvents (forecast : List ℚ) : List Event :=
  sortEvents
    ((find_local_extrema forecast).1.map (fun p => (p.1, p.2, EventAction.buy)) ++
      (find_local_extrema forecast).2.map (fun p => (p.1, p.2, EventAction.sell)))

/-- The mutable trio `(cash, shares, trades)` of the simulation loop. -/
structure SimState where
  cash : ℚ
  shares : ℚ
  trades : List Trade
deriving DecidableEq, Repr

/-- One iteration of the `for day, price, action in all_events` loop:
a buy executes only when `shares == 0`, a sell only when `shares > 0`;
otherwise the event is skipped. -/
def simStep (s : SimState) (e : Event) : SimState :=
  match e with
  | (day, price, EventAction.buy) =>
    if s.shares = 0 then
      { cash := 0, shares := s.cash / price,
        trades := s.trades ++
          [{ day := day, action := TradeAction.buy, price := price,
             shares := s.cash / price }] }
    else s
  | (day, price, EventAction.sell) =>
    if 0 < s.shares then
      { cash := s.shares * price, shares := 0,
        trades := s.trades ++
          [{ day := day, action := TradeAction.sell, price := price,
             shares := s.shares }] }
    else s

/-- The state after the event loop, starting from all cash. -/
def simulateEvents (investment_amount : ℚ) (events : List Event) : SimState :=
  events.foldl simStep { cash := investment_amount, shares := 0, trades := [] }

/-- The `if shares > 0:` block after the loop: force-liquidate the open
position at `forecast[-1]`, recorded at day `len(forecast)`. -/
def liquidate (forecast : List ℚ) (s : SimState) : SimState :=
  if 0 < s.shares then
    { cash := s.shares * forecast.getLastD 0, shares := 0,
      trades := s.trades ++
        [{ day := forecast.length, action := TradeAction.sellEndOfPeriod,
           price := forecast.getLastD 0, shares := s.shares }] }
  else s

/-- `calculate_investment_strategy(current_price, forecast, investment_amount)`.
The `current_price` parameter is bound but never read in the source body. -/
def calculate_investment_strategy (current_price : ℚ) (forecast : List ℚ)
    (investment_amount : ℚ) : StrategyResult :=
  let buy_points := (find_local_extrema forecast).1
  let sell_points := (find_local_extrema forecast).2
  if buy_points = [] ∧ sell_points = [] then
    { recommendations := [], total_profit := 0, profit_percentage := 0,
      final_amount := investment_amount, trades_count := 0,
      buy_points := [], sell_points := [] }
  else
    let s := liquidate forecast
      (simulateEvents investment_amount (strategyEvents forecast))
    let final_amount := if s.shares = 0 then s.cash else s.shares * forecast.getLastD 0
    let total_profit := final_amount - investment_amount
    { recommendations := s.trades,
      total_profit := total_profit,
      profit_percentage := total_profit / investment_amount * 100,
      final_amount := final_amount,
      trades_count := s.trades.length,
      buy_points := buy_points,
      sell_points := sell_points }

/-! ### The two-state machine of the specification (for refinement)

`Position`, `machineStep` and `runMachine` follow the spec's words for
claim C3 — "walk the list holding one of two states, flat (all cash) or
long (all shares)" — and are compared against the simulation loop. -/

/-- Spec-side state: flat (all cash) or long (all shares). -/
inductive Position
  | flat (cash : ℚ)
  | long (shares : ℚ)
deriving DecidableEq, Repr

/-- Spec-side transition: a buy while flat converts all cash to shares at
the event's price; a sell while long converts all shares to cash at the
event's price; any other event is ignored (no trade emitted). -/
def machineStep : Position → Event → Position × Option Trade
  | Position.flat cash, (day, price, EventAction.buy) =>
      (Position.long (cash / price),
        some { day := day, action := TradeAction.buy, price := price,
               shares := cash / price })
  | Position.long shares, (day, price, EventAction.sell) =>
      (Position.flat (shares * price),
        some { day := day, action := TradeAction.sell, price := price,
               shares := shares })
  | p, _ => (p, none)

/-- Walk the whole event list with the spec's machine, collecting the
emitted trades in order. -/
def runMachine : Position → List Event → Position × List Trade
  | p, [] => (p, [])
  | p, e :: es =>
    match machineStep p e with
    | (p', none) => runMachine p' es
    | (p', some t) => ((runMachine p' es).1, t :: (runMachine p' es).2)

/-- The simulation state realises a spec-side position: flat means zero
shares and a positive cash balance, long means zero cash and a positive
share count. -/
def StateRel (s : SimState) : Position → Prop
  | Position.flat c => s.cash = c ∧ s.shares = 0 ∧ 0 < s.cash
  | Position.long sh => s.shares = sh ∧ s.cash = 0 ∧ 0 < s.shares

/-! ### Replay of an executed trade list (for the round-trip claim C9)

`replayTrades` follows the claim's words: starting from the investment
amount, each buy converts all cash to shares at the trade's price, each
sell (including the end-of-period one) converts all shares to cash at
the trade's price. -/

def replayStep (cs : ℚ × ℚ) (t : Trade) : ℚ × ℚ :=
  match t.action with
  | TradeAction.buy => (0, cs.1 / t.price)
  | TradeAction.sell => (cs.2 * t.price, 0)
  | TradeAction.sellEndOfPeriod => (cs.2 * t.price, 0)

/-- `(cash, shares)` after replaying the trade list in order. -/
def replayTrades (investment_amount : ℚ) (ts : List Trade) : ℚ × ℚ :=
  ts.foldl replayStep (investment_amount, 0)

/-! ### Buy/sell alternation (for the invariant claim C8) -/

/-- Whether a trade is a buy (both sell variants count as sells). -/
def tradeIsBuy (t : Trade) : Bool := t.action == TradeAction.buy

/-- `alternatesFrom b ts` checks that `ts` strictly alternates buys and
sells, the first expected action being a buy when `b` is `true`. -/
def alternatesFrom : Bool → List Trade → Bool
  | _, [] => true
  | true, t :: ts => tradeIsBuy t && alternatesFrom false ts
  | false, t :: ts => !tradeIsBuy t && alternatesFrom true ts

/-- The expected-action flag left after consuming a trade list. -/
def expectAfter : Bool → List Trade → Bool
  | b, [] => b
  | b, _ :: ts => expectAfter (!b) ts

theorem alternatesFrom_append (l₁ l₂ : List Trade) :
    ∀ b, alternatesFrom b (l₁ ++ l₂) =
      (alternatesFrom b l₁ && alternatesFrom (expectAfter b l₁) l₂) := by
  induction l₁ with
  | nil => intro b; simp [alternatesFrom, expectAfter]
  | cons t ts ih =>
    intro b
    cases b <;>
      simp [alternatesFrom, expectAfter, ih, Bool.and_assoc]

theorem expectAfter_append (l₁ l₂ : List Trade) :
    ∀ b, expectAfter b (l₁ ++ l₂) = expectAfter (expectAfter b l₁) l₂ := by
  induction l₁ with
  | nil => intro b; simp [expectAfter]
  | cons t ts ih => intro b; simp [expectAfter, ih]

/-! ### Inductive lemmas about the event loop -/

/-- The simulation loop refines the spec machine step by step: related
states stay related (provided event prices are positive) and the trades
appended by the loop are exactly the trades emitted by the machine. -/
theorem foldl_simStep_runMachine : ∀ (es : List Event) (s : SimState) (p : Position),
    StateRel s p → (∀ e ∈ es, 0 < e.2.1) →
    StateRel (es.foldl simStep s) (runMachine p es).1 ∧
      (es.foldl simStep s).trades = s.trades ++ (runMachine p es).2
  | [], s, p, hrel, _ => by simpa [runMachine] using hrel
  | (d, pr, a) :: es, s, p, hrel, hpos => by
    have hpr : 0 < pr := hpos _ (List.mem_cons_self _ _)
    have hrest : ∀ e ∈ es, 0 < e.2.1 := fun e he => hpos e (List.mem_cons_of_mem _ he)
    cases p with
    | flat c =>
      obtain ⟨hc, hsh, hcpos⟩ := hrel
      cases a with
      | buy =>
        have hstep : simStep s (d, pr, EventAction.buy) =
            { cash := 0, shares := s.cash / pr,
              trades := s.trades ++
                [{ day := d, action := TradeAction.buy, price := pr,
                   shares := s.cash / pr }] } := by
          simp [simStep, hsh]
        have hrel' : StateRel (simStep s (d, pr, EventAction.buy))
            (Position.long (c / pr)) := by
          rw [hstep]
          exact ⟨by rw [hc], rfl, div_pos hcpos hpr⟩
        obtain ⟨h1, h2⟩ := foldl_simStep_runMachine es _ _ hrel' hrest
        constructor
        · simpa [runMachine, machineStep] using h1
        · simp only [List.foldl_cons, runMachine, machineStep]
          rw [h2, hstep]
          simp [hc]
      | sell =>
        have hstep : simStep s (d, pr, EventAction.sell) = s := by
          simp [simStep, hsh]
        have hrel' : StateRel (simStep s (d, pr, EventAction.sell))
            (Position.flat c) := by rw [hstep]; exact ⟨hc, hsh, hcpos⟩
        obtain ⟨h1, h2⟩ := foldl_simStep_runMachine es _ _ hrel' hrest
        constructor
        · simpa [runMachine, machineStep] using h1
        · simp only [List.foldl_cons, runMachine, machineStep]
          rw [h2, hstep]
    | long sh =>
      obtain ⟨hshares, hcash, hpos'⟩ := hrel
      cases a with
      | buy =>
        have hne : ¬ s.shares = 0 := by rw [hshares] at hpos' ⊢; exact ne_of_gt hpos'
        have hstep : simStep s (d, pr, EventAction.buy) = s := by
          simp [simStep, hne]
        have hrel' : StateRel (simStep s (d, pr, EventAction.buy))
            (Position.long sh) := by rw [hstep]; exact ⟨hshares, hcash, hpos'⟩
        obtain ⟨h1, h2⟩ := foldl_simStep_runMachine es _ _ hrel' hrest
        constructor
        · simpa [runMachine, machineStep] using h1
        · simp only [List.foldl_cons, runMachine, machineStep]
          rw [h2, hstep]
      | sell =>
        have hgt : 0 < s.shares := hshares ▸ hpos'
        have hstep : simStep s (d, pr, EventAction.sell) =
            { cash := s.shares * pr, shares := 0,
              trades := s.trades ++
                [{ day := d, action := TradeAction.sell, price := pr,
                   shares := s.shares }] } := by
          simp [simStep, hgt]
        have hrel' : StateRel (simStep s (d, pr, EventAction.sell))
            (Position.flat (sh * pr)) := by
          rw [hstep]
          exact ⟨by rw [hshares], rfl, mul_pos hgt hpr⟩
        obtain ⟨h1, h2⟩ := foldl_simStep_runMachine es _ _ hrel' hrest
        constructor
        · simpa [runMachine, machineStep] using h1
        · simp only [List.foldl_cons, runMachine, machineStep]
          rw [h2, hstep]
          simp [hshares]

/-- Replay coherence: if replaying a state's recorded trades reproduces
its `(cash, shares)` pair, the same holds after any further events. -/
theorem foldl_simStep_replay : ∀ (es : List Event) (s : SimState) (inv : ℚ),
    replayTrades inv s.trades = (s.cash, s.shares) →
    replayTrades inv (es.foldl simStep s).trades =
      ((es.foldl simStep s).cash, (es.foldl simStep s).shares)
  | [], s, inv, h => h
  | (d, pr, a) :: es, s, inv, h => by
    have hstep : replayTrades inv (simStep s (d, pr, a)).trades =
        ((simStep s (d, pr, a)).cash, (simStep s (d, pr, a)).shares) := by
      cases a with
      | buy =>
        by_cases hsh : s.shares = 0
        · have he : simStep s (d, pr, EventAction.buy) =
              { cash := 0, shares := s.cash / pr,
                trades := s.trades ++
                  [{ day := d, action := TradeAction.buy, price := pr,
                     shares := s.cash / pr }] } := by simp [simStep, hsh]
          rw [he]
          simp only [replayTrades] at h ⊢
          rw [List.foldl_append, h]
          simp [replayStep]
        · simp only [simStep, if_neg hsh]
          exact h
      | sell =>
        by_cases hsh : 0 < s.shares
        · have he : simStep s (d, pr, EventAction.sell) =
              { cash := s.shares * pr, shares := 0,
                trades := s.trades ++
                  [{ day := d, action := TradeAction.sell, price := pr,
                     shares := s.shares }] } := by simp [simStep, hsh]
          rw [he]
          simp only [replayTrades] at h ⊢
          rw [List.foldl_append, h]
          simp [replayStep]
        · simp only [simStep, if_neg hsh]
          exact h
    exact foldl_simStep_replay es _ inv hstep

/-- Replay coherence extends through the end-of-period liquidation. -/
theorem liquidate_replay (forecast : List ℚ) (s : SimState) (inv : ℚ)
    (h : replayTrades inv s.trades = (s.cash, s.shares)) :
    replayTrades inv (liquidate forecast s).trades =
      ((liquidate forecast s).cash, (liquidate forecast s).shares) := by
  by_cases hsh : 0 < s.shares
  · have he : liquidate forecast s =
        { cash := s.shares * forecast.getLastD 0, shares := 0,
          trades := s.trades ++
            [{ day := forecast.length, action := TradeAction.sellEndOfPeriod,
               price := forecast.getLastD 0, shares := s.shares }] } := by
      simp [liquidate, hsh]
    rw [he]
    simp only [replayTrades] at h ⊢
    rw [List.foldl_append, h]
    simp [replayStep]
  · simp only [liquidate, if_neg hsh]
    exact h

/-- The loop invariant for the alternation claim: the recorded trades
alternate starting with a buy, and the state is flat (zero shares,
positive cash, next expected action a buy) or long (positive shares,
zero cash, next expected action a sell). -/
def LoopInv (s : SimState) : Prop :=
  alternatesFrom true s.trades = true ∧
    ((s.shares = 0 ∧ 0 < s.cash ∧ expectAfter true s.trades = true) ∨
     (0 < s.shares ∧ s.cash = 0 ∧ expectAfter true s.trades = false))

theorem foldl_simStep_loopInv : ∀ (es : List Event) (s : SimState),
    LoopInv s → (∀ e ∈ es, 0 < e.2.1) → LoopInv (es.foldl simStep s)
  | [], s, h, _ => h
  | (d, pr, a) :: es, s, h, hpos => by
    have hpr : 0 < pr := hpos _ (List.mem_cons_self _ _)
    have hrest : ∀ e ∈ es, 0 < e.2.1 := fun e he => hpos e (List.mem_cons_of_mem _ he)
    obtain ⟨halt, hcase⟩ := h
    have hstep : LoopInv (simStep s (d, pr, a)) := by
      rcases hcase with ⟨hsh, hcash, hexp⟩ | ⟨hsh, hcash, hexp⟩
      · cases a with
        | buy =>
          have he : simStep s (d, pr, EventAction.buy) =
              { cash := 0, shares := s.cash / pr,
                trades := s.trades ++
                  [{ day := d, action := TradeAction.buy, price := pr,
                     shares := s.cash / pr }] } := by simp [simStep, hsh]
          rw [he]
          refine ⟨?_, Or.inr ⟨div_pos hcash hpr, rfl, ?_⟩⟩
          · simp [alternatesFrom_append, halt, hexp, alternatesFrom, tradeIsBuy]
          · simp [expectAfter_append, hexp, expectAfter]
        | sell =>
          have hn : ¬ 0 < s.shares := by rw [hsh]; exact lt_irrefl 0
          have he : simStep s (d, pr, EventAction.sell) = s := by
            simp [simStep, hn]
          rw [he]
          exact ⟨halt, Or.inl ⟨hsh, hcash, hexp⟩⟩
      · cases a with
        | buy =>
          have hn : ¬ s.shares = 0 := ne_of_gt hsh
          have he : simStep s (d, pr, EventAction.buy) = s := by
            simp [simStep, hn]
          rw [he]
          exact ⟨halt, Or.inr ⟨hsh, hcash, hexp⟩⟩
        | sell =>
          have he : simStep s (d, pr, EventAction.sell) =
              { cash := s.shares * pr, shares := 0,
                trades := s.trades ++
                  [{ day := d, action := TradeAction.sell, price := pr,
                     shares := s.shares }] } := by simp [simStep, hsh]
          rw [he]
          refine ⟨?_, Or.inl ⟨rfl, mul_pos hsh hpr, ?_⟩⟩
          · simp [alternatesFrom_append, halt, hexp, alternatesFrom, tradeIsBuy]
          · simp [expectAfter_append, hexp, expectAfter]
    exact foldl_simStep_loopInv es _ hstep hrest

/-- The liquidation step preserves the loop invariant and leaves a flat
state (zero shares). -/
theorem liquidate_loopInv (forecast : List ℚ) (s : SimState)
    (hlast : s.shares ≠ 0 → 0 < forecast.getLastD 0)
    (h : LoopInv s) :
    LoopInv (liquidate forecast s) ∧ (liquidate forecast s).shares = 0 := by
  obtain ⟨halt, hcase⟩ := h
  rcases hcase with ⟨hsh, hcash, hexp⟩ | ⟨hsh, hcash, hexp⟩
  · have hn : ¬ 0 < s.shares := by rw [hsh]; exact lt_irrefl 0
    have he : liquidate forecast s = s := by simp [liquidate, hn]
    rw [he]
    exact ⟨⟨halt, Or.inl ⟨hsh, hcash, hexp⟩⟩, hsh⟩
  · have hlp : 0 < forecast.getLastD 0 := hlast (ne_of_gt hsh)
    have he : liquidate forecast s =
        { cash := s.shares * forecast.getLastD 0, shares := 0,
          trades := s.trades ++
            [{ day := forecast.length, action := TradeAction.sellEndOfPeriod,
               price := forecast.getLastD 0, shares := s.shares }] } := by
      simp [liquidate, hsh]
    rw [he]
    refine ⟨⟨?_, Or.inl ⟨rfl, mul_pos hsh hlp, ?_⟩⟩, rfl⟩
    · simp [alternatesFrom_append, halt, hexp, alternatesFrom, tradeIsBuy]
    · simp [expectAfter_append, hexp, expectAfter]

/-! ### Event prices come from the forecast -/

theorem mem_insertEvent {x e : Event} : ∀ {l : List Event},
    x ∈ insertEvent e l ↔ x = e ∨ x ∈ l
  | [] => by simp [insertEvent]
  | y :: l => by
    by_cases h : e.1 ≤ y.1
    · simp [insertEvent, h]
    · simp only [insertEvent, if_neg h, List.mem_cons, mem_insertEvent (l := l)]
      tauto

theorem mem_sortEvents {x : Event} : ∀ {l : List Event}, x ∈ sortEvents l ↔ x ∈ l
  | [] => Iff.rfl
  | y :: l => by
    simp only [sortEvents, mem_insertEvent, List.mem_cons, mem_sortEvents (l := l)]

theorem strategyEvents_price_mem {f : List ℚ} {e : Event}
    (he : e ∈ strategyEvents f) : e.2.1 ∈ f := by
  rw [strategyEvents, mem_sortEvents, List.mem_append] at he
  have hpoint : ∃ d pr, (d, pr) ∈ (find_local_extrema f).1 ∪ (find_local_extrema f).2 ∧
      e.2.1 = pr := by
    rcases he with h | h <;> rw [List.mem_map] at h <;> obtain ⟨p, hp, hpe⟩ := h
    · exact ⟨p.1, p.2, by rw [List.mem_union_iff]; exact Or.inl hp, by rw [← hpe]⟩
    · exact ⟨p.1, p.2, by rw [List.mem_union_iff]; exact Or.inr hp, by rw [← hpe]⟩
  obtain ⟨d, pr, hmem, hepr⟩ := hpoint
  rw [List.mem_union_iff] at hmem
  have hgd : ∃ i, i < f.length ∧ f.getD i 0 = pr := by
    rcases hmem with h | h <;>
      · rw [find_local_extrema] at h
        simp only [List.mem_filterMap, List.mem_range,
          Option.ite_none_right_eq_some, Option.some.injEq, Prod.mk.injEq] at h
        obtain ⟨i, hi, _, _, hpr⟩ := h
        exact ⟨i, hi, hpr⟩
  obtain ⟨i, hi, hpr⟩ := hgd
  rw [hepr, ← hpr, List.getD_eq_getElem _ _ hi]
  exact List.getElem_mem hi

theorem strategyEvents_price_pos {f : List ℚ} (hf : ∀ x ∈ f, 0 < x) :
    ∀ e ∈ strategyEvents f, 0 < e.2.1 :=
  fun e he => hf _ (strategyEvents_price_mem he)

/-! ### Branch characterizations of `calculate_investment_strategy` -/

theorem strategyEvents_nil_of_no_extrema {f : List ℚ}
    (h1 : (find_local_extrema f).1 = []) (h2 : (find_local_extrema f).2 = []) :
    strategyEvents f = [] := by
  rw [strategyEvents, h1, h2]
  rfl

theorem calculate_investment_strategy_then (cp : ℚ) (f : List ℚ) (inv : ℚ)
    (h1 : (find_local_extrema f).1 = []) (h2 : (find_local_extrema f).2 = []) :
    calculate_investment_strategy cp f inv =
      { recommendations := [], total_profit := 0, profit_percentage := 0,
        final_amount := inv, trades_count := 0,
        buy_points := [], sell_points := [] } := by
  simp [calculate_investment_strategy, h1, h2]

theorem calculate_investment_strategy_else (cp : ℚ) (f : List ℚ) (inv : ℚ)
    (h : ¬ ((find_local_extrema f).1 = [] ∧ (find_local_extrema f).2 = [])) :
    calculate_investment_strategy cp f inv =
      (let s := liquidate f (simulateEvents inv (strategyEvents f))
       let final_amount := if s.shares = 0 then s.cash else s.shares * f.getLastD 0
       { recommendations := s.trades,
         total_profit := final_amount - inv,
         profit_percentage := (final_amount - inv) / inv * 100,
         final_amount := final_amount,
         trades_count := s.trades.length,
         buy_points := (find_local_extrema f).1,
         sell_points := (find_local_extrema f).2 }) := by
  rw [calculate_investment_strategy]
  simp only []
  rw [if_neg h]

theorem getLastD_mem : ∀ {l : List ℚ} (d : ℚ), l ≠ [] → l.getLastD d ∈ l
  | [], _, h => absurd rfl h
  | [a], _, _ => by simp
  | a :: b :: t, d, _ => by
    have := getLastD_mem (l := b :: t) a (by simp)
    simp only [List.getLastD_cons] at this ⊢
    exact List.mem_cons_of_mem _ this

/-! ## Theorems about the strategy simulator -/

/-- C4: an interior index `i` of the forecast is a buy candidate exactly
when its value is strictly less than both neighbors, and a sell candidate
exactly when strictly greater than both neighbors, recorded with day
number `i + 1`; ties produce no candidates (the comparisons are strict).
On `[10, 8, 12, 7, 15, 15, 9]` the buy candidates are day 2 (value 8) and
day 4 (value 7), the only sell candidate is day 3 (value 12), and the
flat pair `(15, 15)` yields no candidate. -/
theorem find_local_extrema_strict_neighbors_spec :
    (∀ (f : List ℚ) (d : ℕ) (v : ℚ),
      ((d, v) ∈ (find_local_extrema f).1 ↔
        ∃ i, d = i + 1 ∧ 1 ≤ i ∧ i + 1 < f.length ∧ f.getD i 0 = v ∧
          v < f.getD (i - 1) 0 ∧ v < f.getD (i + 1) 0) ∧
      ((d, v) ∈ (find_local_extrema f).2 ↔
        ∃ i, d = i + 1 ∧ 1 ≤ i ∧ i + 1 < f.length ∧ f.getD i 0 = v ∧
          f.getD (i - 1) 0 < v ∧ f.getD (i + 1) 0 < v)) ∧
    find_local_extrema [10, 8, 12, 7, 15, 15, 9] = ([(2, 8), (4, 7)], [(3, 12)]) := by
  constructor
  · intro f d v
    constructor
    · simp only [find_local_extrema, List.mem_filterMap, List.mem_range,
        Option.ite_none_right_eq_some, Option.some.injEq, Prod.mk.injEq]
      constructor
      · rintro ⟨i, hi, ⟨h1, h2, h3, h4⟩, hd, hv⟩
        exact ⟨i, hd.symm, h1, h2, hv, hv ▸ h3, hv ▸ h4⟩
      · rintro ⟨i, hd, h1, h2, hv, h3, h4⟩
        exact ⟨i, by omega, ⟨h1, h2, hv ▸ h3, hv ▸ h4⟩, hd.symm, hv⟩
    · simp only [find_local_extrema, List.mem_filterMap, List.mem_range,
        Option.ite_none_right_eq_some, Option.some.injEq, Prod.mk.injEq]
      constructor
      · rintro ⟨i, hi, ⟨h1, h2, h3, h4⟩, hd, hv⟩
        exact ⟨i, hd.symm, h1, h2, hv, hv ▸ h3, hv ▸ h4⟩
      · rintro ⟨i, hd, h1, h2, hv, h3, h4⟩
        exact ⟨i, by omega, ⟨h1, h2, hv ▸ h3, hv ▸ h4⟩, hd.symm, hv⟩
  · decide

/-- C3: the trade simulation walks the chronologically merged event list
as a two-state machine.  Starting flat with all cash, a buy while flat
converts all cash to shares at the event's price (transition to long), a
sell while long converts all shares to cash at the event's price
(transition to flat), every event not matching the current state is
ignored, and a position still open after the last event is
force-liquidated at the final forecast value as a distinguished
end-of-period sell recorded at day `forecast.length`. -/
theorem calculate_investment_strategy_two_state_machine
    (cp : ℚ) (f : List ℚ) (inv : ℚ)
    (hf : ∀ x ∈ f, 0 < x) (hinv : 0 < inv) :
    (∀ c, (runMachine (Position.flat inv) (strategyEvents f)).1 = Position.flat c →
      (calculate_investment_strategy cp f inv).recommendations =
        (runMachine (Position.flat inv) (strategyEvents f)).2 ∧
      (calculate_investment_strategy cp f inv).final_amount = c) ∧
    (∀ sh, (runMachine (Position.flat inv) (strategyEvents f)).1 = Position.long sh →
      (calculate_investment_strategy cp f inv).recommendations =
        (runMachine (Position.flat inv) (strategyEvents f)).2 ++
          [{ day := f.length, action := TradeAction.sellEndOfPeriod,
             price := f.getLastD 0, shares := sh }] ∧
      (calculate_investment_strategy cp f inv).final_amount = sh * f.getLastD 0) := by
  have hrel₀ : StateRel { cash := inv, shares := 0, trades := [] } (Position.flat inv) :=
    ⟨rfl, rfl, hinv⟩
  have hmain := foldl_simStep_runMachine (strategyEvents f)
    { cash := inv, shares := 0, trades := [] } (Position.flat inv) hrel₀
    (strategyEvents_price_pos hf)
  have hrel : StateRel (simulateEvents inv (strategyEvents f))
      (runMachine (Position.flat inv) (strategyEvents f)).1 := hmain.1
  have htr : (simulateEvents inv (strategyEvents f)).trades =
      (runMachine (Position.flat inv) (strategyEvents f)).2 := by
    have h2 : (simulateEvents inv (strategyEvents f)).trades =
        [] ++ (runMachine (Position.flat inv) (strategyEvents f)).2 := hmain.2
    rw [List.nil_append] at h2
    exact h2
  by_cases hb : (find_local_extrema f).1 = [] ∧ (find_local_extrema f).2 = []
  · have hev : strategyEvents f = [] := strategyEvents_nil_of_no_extrema hb.1 hb.2
    rw [hev]
    rw [calculate_investment_strategy_then cp f inv hb.1 hb.2]
    constructor
    · intro c hc
      have hc' : Position.flat inv = Position.flat c := hc
      cases hc'
      exact ⟨rfl, rfl⟩
    · intro sh hsh
      have hsh' : Position.flat inv = Position.long sh := hsh
      exact Position.noConfusion hsh'
  · rw [calculate_investment_strategy_else cp f inv hb]
    constructor
    · intro c hc
      rw [hc] at hrel
      obtain ⟨hcash, hshares, hcpos⟩ := hrel
      have hnl : ¬ 0 < (simulateEvents inv (strategyEvents f)).shares := by
        rw [hshares]; exact lt_irrefl 0
      have hliq : liquidate f (simulateEvents inv (strategyEvents f)) =
          simulateEvents inv (strategyEvents f) := by simp [liquidate, hnl]
      simp only [hliq]
      exact ⟨htr, by simp [hshares, hcash]⟩
    · intro sh hsh
      rw [hsh] at hrel
      obtain ⟨hshares, hcash, hpos'⟩ := hrel
      have hgt : 0 < (simulateEvents inv (strategyEvents f)).shares := hshares ▸ hpos'
      have hliq : liquidate f (simulateEvents inv (strategyEvents f)) =
          { cash := (simulateEvents inv (strategyEvents f)).shares * f.getLastD 0,
            shares := 0,
            trades := (simulateEvents inv (strategyEvents f)).trades ++
              [{ day := f.length, action := TradeAction.sellEndOfPeriod,
                 price := f.getLastD 0,
                 shares := (simulateEvents inv (strategyEvents f)).shares }] } := by
        simp [liquidate, hgt]
      simp only [hliq]
      refine ⟨?_, ?_⟩
      · simp only [htr, hshares]
      · simp [hshares]

/-- With positive forecast values and a positive investment the
liquidated end state satisfies the loop invariant and holds no shares. -/
theorem liquidate_end_state (f : List ℚ) (inv : ℚ)
    (hf : ∀ x ∈ f, 0 < x) (hinv : 0 < inv) :
    LoopInv (liquidate f (simulateEvents inv (strategyEvents f))) ∧
      (liquidate f (simulateEvents inv (strategyEvents f))).shares = 0 := by
  have hinv₀ : LoopInv { cash := inv, shares := 0, trades := [] } :=
    ⟨rfl, Or.inl ⟨rfl, hinv, rfl⟩⟩
  have hfull : LoopInv (simulateEvents inv (strategyEvents f)) :=
    foldl_simStep_loopInv _ _ hinv₀ (strategyEvents_price_pos hf)
  have hlast : (simulateEvents inv (strategyEvents f)).shares ≠ 0 →
      0 < f.getLastD 0 := by
    intro hne
    have hfne : f ≠ [] := by
      intro hfe
      subst hfe
      exact hne rfl
    exact hf _ (getLastD_mem 0 hfne)
  exact liquidate_loopInv f _ hlast hfull

/-- C8: the strategy never holds more than one open position: after every
prefix of the event walk the state is fully in cash (`shares = 0`) or
fully invested (`cash = 0`), the executed trade list strictly alternates
buys and sells starting with a buy, and the final (liquidated) state is
fully in cash, with `final_amount` equal to its cash. -/
theorem calculate_investment_strategy_single_position_invariant
    (cp : ℚ) (f : List ℚ) (inv : ℚ)
    (hf : ∀ x ∈ f, 0 < x) (hinv : 0 < inv) :
    (∀ k, (simulateEvents inv ((strategyEvents f).take k)).cash = 0 ∨
      (simulateEvents inv ((strategyEvents f).take k)).shares = 0) ∧
    alternatesFrom true (calculate_investment_strategy cp f inv).recommendations = true ∧
    (liquidate f (simulateEvents inv (strategyEvents f))).shares = 0 ∧
    (calculate_investment_strategy cp f inv).final_amount =
      (liquidate f (simulateEvents inv (strategyEvents f))).cash := by
  have hinv₀ : LoopInv { cash := inv, shares := 0, trades := [] } :=
    ⟨rfl, Or.inl ⟨rfl, hinv, rfl⟩⟩
  have hend := liquidate_end_state f inv hf hinv
  refine ⟨?_, ?_, hend.2, ?_⟩
  · intro k
    have hk : LoopInv (simulateEvents inv ((strategyEvents f).take k)) :=
      foldl_simStep_loopInv _ _ hinv₀
        (fun e he => strategyEvents_price_pos hf e (List.take_subset _ _ he))
    rcases hk.2 with ⟨hsh, _, _⟩ | ⟨_, hcash, _⟩
    · exact Or.inr hsh
    · exact Or.inl hcash
  · by_cases hb : (find_local_extrema f).1 = [] ∧ (find_local_extrema f).2 = []
    · rw [calculate_investment_strategy_then cp f inv hb.1 hb.2]
      rfl
    · rw [calculate_investment_strategy_else cp f inv hb]
      exact hend.1.1
  · by_cases hb : (find_local_extrema f).1 = [] ∧ (find_local_extrema f).2 = []
    · rw [calculate_investment_strategy_then cp f inv hb.1 hb.2,
        strategyEvents_nil_of_no_extrema hb.1 hb.2]
      simp [liquidate, simulateEvents]
    · rw [calculate_investment_strategy_else cp f inv hb]
      simp only [hend.2, if_pos]

/-- C9: replaying the returned trade list in order — starting from the
investment amount, each buy converting all cash to shares at the trade's
price, each sell converting all shares to cash at the trade's price —
reproduces the reported `final_amount`; `total_profit` is `final_amount`
minus the investment and `profit_percentage` is
`total_profit / investment * 100`. -/
theorem calculate_investment_strategy_replay_round_trip
    (cp : ℚ) (f : List ℚ) (inv : ℚ)
    (hf : ∀ x ∈ f, 0 < x) (hinv : 0 < inv) :
    (replayTrades inv (calculate_investment_strategy cp f inv).recommendations).1 =
      (calculate_investment_strategy cp f inv).final_amount ∧
    (calculate_investment_strategy cp f inv).total_profit =
      (calculate_investment_strategy cp f inv).final_amount - inv ∧
    (calculate_investment_strategy cp f inv).profit_percentage =
      (calculate_investment_strategy cp f inv).total_profit / inv * 100 := by
  by_cases hb : (find_local_extrema f).1 = [] ∧ (find_local_extrema f).2 = []
  · rw [calculate_investment_strategy_then cp f inv hb.1 hb.2]
    refine ⟨rfl, (sub_self inv).symm, ?_⟩
    simp
  · have h1 := foldl_simStep_replay (strategyEvents f)
      { cash := inv, shares := 0, trades := [] } inv rfl
    have h2 := liquidate_replay f _ inv h1
    have hend := liquidate_end_state f inv hf hinv
    rw [calculate_investment_strategy_else cp f inv hb]
    refine ⟨?_, rfl, rfl⟩
    simp only [hend.2, if_pos]
    exact congrArg Prod.fst h2

/-- Witness for C3 on the forecast `[10, 8, 12, 7, 15, 15, 9]` with
investment 1000: the machine ends long with `1500 / 7` shares, so the
simulation appends the end-of-period sell at day 7 and price 9. -/
theorem calculate_investment_strategy_two_state_machine_witness :
    (calculate_investment_strategy 10 [10, 8, 12, 7, 15, 15, 9] 1000).recommendations =
      (runMachine (Position.flat 1000) (strategyEvents [10, 8, 12, 7, 15, 15, 9])).2 ++
        [{ day := 7, action := TradeAction.sellEndOfPeriod, price := 9,
           shares := 1500 / 7 }] ∧
    (calculate_investment_strategy 10 [10, 8, 12, 7, 15, 15, 9] 1000).final_amount =
      1500 / 7 * 9 :=
  (calculate_investment_strategy_two_state_machine 10 [10, 8, 12, 7, 15, 15, 9] 1000
    (by decide) (by norm_num)).2 (1500 / 7) (by
      have h : strategyEvents [10, 8, 12, 7, 15, 15, 9] =
          [(2, 8, EventAction.buy), (3, 12, EventAction.sell),
           (4, 7, EventAction.buy)] := by decide
      rw [h]
      norm_num [runMachine, machineStep])

/-- Witness for C8 on the forecast `[10, 8, 12, 7, 15, 15, 9]` with
investment 1000. -/
theorem calculate_investment_strategy_single_position_invariant_witness :
    ((simulateEvents 1000 ((strategyEvents [10, 8, 12, 7, 15, 15, 9]).take 2)).cash = 0 ∨
      (simulateEvents 1000 ((strategyEvents [10, 8, 12, 7, 15, 15, 9]).take 2)).shares = 0) ∧
    alternatesFrom true
      (calculate_investment_strategy 10 [10, 8, 12, 7, 15, 15, 9] 1000).recommendations =
      true :=
  ⟨(calculate_investment_strategy_single_position_invariant 10 [10, 8, 12, 7, 15, 15, 9]
      1000 (by decide) (by norm_num)).1 2,
   (calculate_investment_strategy_single_position_invariant 10 [10, 8, 12, 7, 15, 15, 9]
      1000 (by decide) (by norm_num)).2.1⟩

/-- Witness for C9 on the forecast `[10, 8, 12, 7, 15, 15, 9]` with
investment 1000. -/
theorem calculate_investment_strategy_replay_round_trip_witness :
    (replayTrades 1000
        (calculate_investment_strategy 10 [10, 8, 12, 7, 15, 15, 9] 1000).recommendations).1 =
      (calculate_investment_strategy 10 [10, 8, 12, 7, 15, 15, 9] 1000).final_amount ∧
    (calculate_investment_strategy 10 [10, 8, 12, 7, 15, 15, 9] 1000).total_profit =
      (calculate_investment_strategy 10 [10, 8, 12, 7, 15, 15, 9] 1000).final_amount - 1000 ∧
    (calculate_investment_strategy 10 [10, 8, 12, 7, 15, 15, 9] 1000).profit_percentage =
      (calculate_investment_strategy 10 [10, 8, 12, 7, 15, 15, 9] 1000).total_profit /
        1000 * 100 :=
  calculate_investment_strategy_replay_round_trip 10 [10, 8, 12, 7, 15, 15, 9] 1000
    (by decide) (by norm_num)

/-- C10: `calculate_investment_strategy` returns identical results for
any two values of its `current_price` argument — the current price has no
influence on the computed strategy. -/
theorem calculate_investment_strategy_ignores_current_price
    (cp₁ cp₂ : ℚ) (forecast : List ℚ) (investment_amount : ℚ)
    (hinv : 0 < investment_amount) :
    calculate_investment_strategy cp₁ forecast investment_amount =
      calculate_investment_strategy cp₂ forecast investment_amount := rfl

/-- Witness for C10 at concrete current prices 3 and 42. -/
theorem calculate_investment_strategy_ignores_current_price_witness :
    0 < (1000 : ℚ) ∧
      calculate_investment_strategy 3 [10, 8, 12, 7, 15, 15, 9] 1000 =
        calculate_investment_strategy 42 [10, 8, 12, 7, 15, 15, 9] 1000 :=
  ⟨by norm_num,
    calculate_investment_strategy_ignores_current_price 3 42
      [10, 8, 12, 7, 15, 15, 9] 1000 (by norm_num)⟩

/-! ## model_evaluator.py — calculate_metrics -/

/-- `np.mean` of a rational list: sum divided by length.  (For the empty
list this is `0 / 0 = 0` under rational division; the pipeline never
computes metrics on empty arrays.) -/
def npMean (l : List ℚ) : ℚ := l.sum / l.length

/-- The metric dictionary returned by `calculate_metrics`.  The source's
`RMSE` entry is the real square root of `MSE` (see `Metrics.RMSE`); the
rational mean squared error is carried so the rest stays computable. -/
structure Metrics where
  MSE : ℚ
  MAE : ℚ
  MAPE : ℚ
  R2 : ℚ
deriving DecidableEq, Repr

/-- `ss_tot = np.sum((y_true - np.mean(y_true)) ** 2)`. -/
def ss_tot (y_true : List ℚ) : ℚ :=
  (y_true.map (fun a => (a - npMean y_true) ^ 2)).sum

/-- `calculate_metrics(y_true, y_pred)`:
`rmse = sqrt(mean((t - p)^2))` (its square `MSE` is stored),
`mae = mean(|t - p|)`, `mape = mean(|(t - p) / t|) * 100`,
`r2 = 1 - ss_res / ss_tot if ss_tot != 0 else 0`. -/
def calculate_metrics (y_true y_pred : List ℚ) : Metrics :=
  let diff := List.zipWith (fun a b => a - b) y_true y_pred
  let mse := npMean (diff.map (fun d => d ^ 2))
  let mae := npMean (diff.map (fun d => |d|))
  let mape := npMean (List.zipWith (fun a b => |(a - b) / a|) y_true y_pred) * 100
  let ssr := (diff.map (fun d => d ^ 2)).sum
  let r2 := if ss_tot y_true ≠ 0 then 1 - ssr / ss_tot y_true else 0
  { MSE := mse, MAE := mae, MAPE := mape, R2 := r2 }

/-- `RMSE = np.sqrt(np.mean((y_true - y_pred) ** 2))`. -/
noncomputable def Metrics.RMSE (m : Metrics) : ℝ := Real.sqrt (m.MSE : ℝ)

theorem zipWith_sub_self (t : List ℚ) :
    List.zipWith (fun a b => a - b) t t = t.map (fun _ => (0 : ℚ)) := by
  induction t with
  | nil => rfl
  | cons a t ih => simp [ih]

/-- C6 counterexample: on the equal non-empty constant arrays
`[5, 5]` and `[5, 5]` the code returns `R² = 0`, not `1` (the actual
array has zero total variance, so the zero-variance branch fires). -/
theorem calculate_metrics_identical_constant_R2_zero :
    (calculate_metrics [5, 5] [5, 5]).R2 = 0 ∧ (0 : ℚ) ≠ 1 := by
  constructor
  · have h : ss_tot [5, 5] = 0 := by
      norm_num [ss_tot, npMean]
    simp [calculate_metrics, h]
  · norm_num

/-- C6 (amended): on every pair of equal non-empty arrays the code
returns RMSE = 0, MAE = 0, MAPE = 0, and R² = 1 when the actual array
has nonzero total variance; whenever the total variance is zero (for any
prediction array) R² is defined as 0 rather than produced by a division
by zero. -/
theorem calculate_metrics_identical_arrays (t : List ℚ) (h : t ≠ []) :
    (calculate_metrics t t).MSE = 0 ∧ (calculate_metrics t t).RMSE = 0 ∧
    (calculate_metrics t t).MAE = 0 ∧ (calculate_metrics t t).MAPE = 0 ∧
    (ss_tot t ≠ 0 → (calculate_metrics t t).R2 = 1) ∧
    (∀ p : List ℚ, ss_tot t = 0 → (calculate_metrics t p).R2 = 0) := by
  have hdiff := zipWith_sub_self t
  have hmse : (calculate_metrics t t).MSE = 0 := by
    simp [calculate_metrics, hdiff, npMean, List.map_map, Function.comp]
  refine ⟨hmse, ?_, ?_, ?_, ?_, ?_⟩
  · rw [Metrics.RMSE, hmse]
    simp [Real.sqrt_zero]
  · simp [calculate_metrics, hdiff, npMean, List.map_map, Function.comp]
  · have hz : List.zipWith (fun a b => |(a - b) / a|) t t =
        t.map (fun _ => (0 : ℚ)) := by
      induction t with
      | nil => rfl
      | cons a t ih => simp [ih]
    simp [calculate_metrics, hz, npMean]
  · intro hvar
    simp [calculate_metrics, hdiff, List.map_map, Function.comp, hvar]
  · intro p hvar
    simp [calculate_metrics, hvar]

/-- Witness for C6 (amended) at `t = [1, 2]`, whose total variance is
`1/2 ≠ 0`. -/
theorem calculate_metrics_identical_arrays_witness :
    (calculate_metrics [1, 2] [1, 2]).MAPE = 0 ∧
      (calculate_metrics [1, 2] [1, 2]).R2 = 1 :=
  ⟨(calculate_metrics_identical_arrays [1, 2] (by simp)).2.2.2.1,
   (calculate_metrics_identical_arrays [1, 2] (by simp)).2.2.2.2.1
     (by norm_num [ss_tot, npMean])⟩

/-! ## model_evaluator.py — evaluate_models

The harness builds `models = [MLModel(), ARIMAModel(), LSTMModel()]` —
in claim vocabulary the tree-ensemble, the statistical, and the
recurrent variant, in that order — calls `train` on each inside a
`try/except`, keys the `results` dict by the model's name, and selects
`min(results.keys(), key=lambda x: results[x]['metrics']['RMSE'])`.
Python dicts preserve insertion order and `min` returns the first item
attaining the minimal key, so selection is: first surviving variant, in
source enumeration order, with minimal RMSE.  Each variant's `train`
outcome is abstracted as `Option ℚ`: `some rmse` when `train` returned
and its metrics carry that RMSE, `none` when it raised. -/

/-- The three model variants of the harness. -/
inductive ModelKind
  | treeEnsemble
  | statistical
  | recurrent
deriving DecidableEq, Repr

/-- Source enumeration order: `[MLModel(), ARIMAModel(), LSTMModel()]`. -/
def modelOrder : List ModelKind :=
  [ModelKind.treeEnsemble, ModelKind.statistical, ModelKind.recurrent]

/-- Python `min(..., key=...)`: keep the current best unless the
candidate's key is strictly smaller, so the first minimal item wins. -/
def selectBest (r : ModelKind × ℚ) (rs : List (ModelKind × ℚ)) : ModelKind × ℚ :=
  rs.foldl (fun best x => if x.2 < best.2 then x else best) r

/-- `evaluate_models`: train every variant inside its failure boundary,
collect survivors in enumeration order, raise `ValueError` when none
survived, else pick the minimum-RMSE survivor (first on ties). -/
def evaluate_models (trainOutcome : ModelKind → Option ℚ) :
    Except String (ModelKind × ℚ) :=
  match modelOrder.filterMap
      (fun m => (trainOutcome m).map (fun rmse => (m, rmse))) with
  | [] => Except.error "Не удалось обучить ни одну модель"
  | r :: rs => Except.ok (selectBest r rs)

/-- Position of a variant in the source enumeration order. -/
def modelIdx : ModelKind → ℕ
  | ModelKind.treeEnsemble => 0
  | ModelKind.statistical => 1
  | ModelKind.recurrent => 2

/-- Follows the claim's words, for comparison with `evaluate_models`:
the same selection but with the enumeration order
statistical, tree-ensemble, recurrent. -/
def evaluate_models_specOrder (trainOutcome : ModelKind → Option ℚ) :
    Except String (ModelKind × ℚ) :=
  match [ModelKind.statistical, ModelKind.treeEnsemble, ModelKind.recurrent].filterMap
      (fun m => (trainOutcome m).map (fun rmse => (m, rmse))) with
  | [] => Except.error "Не удалось обучить ни одну модель"
  | r :: rs => Except.ok (selectBest r rs)

/-- C5: the harness catches a variant's training exception without
aborting the others: it returns an error exactly when all three variants
raised, and a successful return carries a variant whose training
succeeded (with that variant's RMSE). -/
theorem evaluate_models_failure_isolation (o : ModelKind → Option ℚ) :
    ((∃ e, evaluate_models o = Except.error e) ↔
      o ModelKind.treeEnsemble = none ∧ o ModelKind.statistical = none ∧
        o ModelKind.recurrent = none) ∧
    (∀ m r, evaluate_models o = Except.ok (m, r) → o m = some r) := by
  cases ht : o ModelKind.treeEnsemble <;>
    cases hs : o ModelKind.statistical <;>
      cases hr : o ModelKind.recurrent <;>
  · constructor
    · simp [evaluate_models, modelOrder, ht, hs, hr]
    · intro m r hok
      simp only [evaluate_models, modelOrder, List.filterMap, ht, hs, hr,
        Option.map_some', Option.map_none', selectBest, List.foldl,
        Except.ok.injEq, Prod.mk.injEq] at hok
      · first
        | exact Except.noConfusion hok
        | (obtain ⟨rfl, rfl⟩ := hok
           simp [ht, hs, hr])
        | (split_ifs at hok <;>
            · obtain ⟨rfl, rfl⟩ := hok
              simp [ht, hs, hr])

/-- Train outcomes where only the statistical variant survives
(RMSE 3); the other two variants raise. -/
def soleStatisticalOutcome : ModelKind → Option ℚ
  | ModelKind.treeEnsemble => none
  | ModelKind.statistical => some 3
  | ModelKind.recurrent => none

/-- Witness for C5: with the tree-ensemble and recurrent variants
failing and the statistical variant surviving with RMSE 3, the harness
returns the statistical variant. -/
theorem evaluate_models_failure_isolation_witness :
    soleStatisticalOutcome ModelKind.statistical = some 3 :=
  (evaluate_models_failure_isolation soleStatisticalOutcome).2
    ModelKind.statistical 3 (by rfl)

/-- Train outcomes tying the tree-ensemble and statistical variants at
RMSE 2, with the recurrent variant at 9. -/
def tieOutcome : ModelKind → Option ℚ
  | ModelKind.treeEnsemble => some 2
  | ModelKind.statistical => some 2
  | ModelKind.recurrent => some 9

/-- C1 counterexample: on a tie between the statistical and the
tree-ensemble variant, the harness selects the tree-ensemble variant
(first in the source's `[MLModel(), ARIMAModel(), LSTMModel()]` order),
whereas selection under the claimed enumeration order
statistical, tree-ensemble, recurrent would pick the statistical one. -/
theorem evaluate_models_tie_order_counterexample :
    evaluate_models tieOutcome = Except.ok (ModelKind.treeEnsemble, 2) ∧
    evaluate_models_specOrder tieOutcome = Except.ok (ModelKind.statistical, 2) ∧
    ModelKind.treeEnsemble ≠ ModelKind.statistical := by
  refine ⟨?_, ?_, by simp⟩
  · have h1 : ¬ ((2 : ℚ) < 2) := lt_irrefl 2
    have h2 : ¬ ((9 : ℚ) < 2) := by norm_num
    simp [evaluate_models, modelOrder, tieOutcome, selectBest, h1, h2]
  · have h1 : ¬ ((2 : ℚ) < 2) := lt_irrefl 2
    have h2 : ¬ ((9 : ℚ) < 2) := by norm_num
    simp [evaluate_models_specOrder, tieOutcome, selectBest, h1, h2]

/-- C1 (amended): the harness selects, among the variants whose training
succeeded, one with the globally minimal RMSE, ties broken by the source
enumeration order tree-ensemble, statistical, recurrent (the first
variant attaining the minimal value wins); selection depends only on the
RMSE values. -/
theorem evaluate_models_selects_first_minimum (o : ModelKind → Option ℚ)
    (m : ModelKind) (r : ℚ) (hok : evaluate_models o = Except.ok (m, r)) :
    o m = some r ∧
    (∀ m' r', o m' = some r' → r ≤ r') ∧
    (∀ m', o m' = some r → modelIdx m ≤ modelIdx m') := by
  cases ht : o ModelKind.treeEnsemble <;>
    cases hs : o ModelKind.statistical <;>
      cases hr : o ModelKind.recurrent <;>
  · simp only [evaluate_models, modelOrder, List.filterMap, ht, hs, hr,
      Option.map_some', Option.map_none', selectBest, List.foldl,
      Except.ok.injEq, Prod.mk.injEq] at hok
    first
    | exact Except.noConfusion hok
    | (obtain ⟨rfl, rfl⟩ := hok
       refine ⟨by simp [ht, hs, hr], ?_, ?_⟩
       · intro m' r' h'
         cases m' <;> simp only [ht, hs, hr, Option.some.injEq] at h' <;>
           first
             | exact Option.noConfusion h'
             | (subst h'; exact le_refl _)
       · intro m' h'
         cases m' <;> simp only [ht, hs, hr, Option.some.injEq] at h' <;>
           first
             | exact Option.noConfusion h'
             | simp [modelIdx])
    | (split_ifs at hok <;>
        · obtain ⟨rfl, rfl⟩ := hok
          refine ⟨by simp [ht, hs, hr], ?_, ?_⟩
          · intro m' r' h'
            cases m' <;> simp only [ht, hs, hr, Option.some.injEq] at h' <;>
              first
                | exact Option.noConfusion h'
                | (subst h'; linarith)
          · intro m' h'
            cases m' <;> simp only [ht, hs, hr, Option.some.injEq] at h' <;>
              first
                | exact Option.noConfusion h'
                | (simp only [modelIdx]
                   omega)
                | (simp only [modelIdx]
                   linarith))

/-- The spec's worked example: RMSE 4.0, 2.5 and 9.9 for the three
variants in enumeration order. -/
def specExampleOutcome : ModelKind → Option ℚ
  | ModelKind.treeEnsemble => some 4
  | ModelKind.statistical => some (5 / 2)
  | ModelKind.recurrent => some (99 / 10)

/-- Witness for C1 (amended) on RMSE values {4.0, 2.5, 9.9}: the
selected variant is the statistical one (RMSE 2.5) and its RMSE is a
lower bound of the tree-ensemble's 4.0. -/
theorem evaluate_models_selects_first_minimum_witness :
    specExampleOutcome ModelKind.statistical = some (5 / 2) ∧ (5 : ℚ) / 2 ≤ 4 := by
  have hok : evaluate_models specExampleOutcome =
      Except.ok (ModelKind.statistical, 5 / 2) := by
    have h1 : (5 : ℚ) / 2 < 4 := by norm_num
    have h2 : ¬ ((99 : ℚ) / 10 < 5 / 2) := by norm_num
    simp [evaluate_models, modelOrder, specExampleOutcome, selectBest, h1, h2]
  exact ⟨(evaluate_models_selects_first_minimum specExampleOutcome
      ModelKind.statistical (5 / 2) hok).1,
    (evaluate_models_selects_first_minimum specExampleOutcome
      ModelKind.statistical (5 / 2) hok).2.1 ModelKind.treeEnsemble 4 rfl⟩

/-! ## models/arima_model.py

The statsmodels fits are abstracted as oracles: `fit o` stands for
`ARIMA(data, order=o).fit().forecast(steps=n)` on the data/steps of the
call — `some forecast` on success, `none` when statsmodels raises — and
`es` stands for the
`ExponentialSmoothing(prices, trend='add', seasonal=None)` fallback
forecast of `predict`'s innermost handler. -/

/-- An ARIMA order `(p, d, q)`. -/
abbrev ARIMAOrder := ℕ × ℕ × ℕ

/-- The model's one piece of mutable state, `self.order`;
`ARIMAModel.init` is the construction-time default `(5, 1, 0)`. -/
structure ARIMAModel where
  order : ARIMAOrder
deriving DecidableEq, Repr

def ARIMAModel.init : ARIMAModel := { order := (5, 1, 0) }

/-- `ARIMAModel.train`: try `fit self.order`; on an exception set
`self.order = (1, 1, 1)` and retry; if the retry also raises, raise
`ValueError` (the `Except.error`).  Returns the updated model alongside
the outcome — the source mutates `self.order` in the `except` branch
whether or not the retry succeeds. -/
def ARIMAModel.train (fit : ARIMAOrder → Option (List ℚ)) (m : ARIMAModel) :
    ARIMAModel × Except String (List ℚ) :=
  match fit m.order with
  | some f => (m, Except.ok f)
  | none =>
    match fit (1, 1, 1) with
    | some f => ({ order := (1, 1, 1) }, Except.ok f)
    | none => ({ order := (1, 1, 1) }, Except.error "Не удалось обучить ARIMA")

/-- `ARIMAModel.predict`: try `fit self.order`; on an exception set
`self.order = (1, 1, 1)` and retry; if that also raises, fall back to
exponential smoothing, whose own failure propagates uncaught. -/
def ARIMAModel.predict (fit : ARIMAOrder → Option (List ℚ))
    (es : Option (List ℚ)) (m : ARIMAModel) :
    ARIMAModel × Except String (List ℚ) :=
  match fit m.order with
  | some f => (m, Except.ok f)
  | none =>
    match fit (1, 1, 1) with
    | some f => ({ order := (1, 1, 1) }, Except.ok f)
    | none =>
      match es with
      | some f => ({ order := (1, 1, 1) }, Except.ok f)
      | none => ({ order := (1, 1, 1) }, Except.error "ExponentialSmoothing raised")

/-- Follows the claim's words, for comparison with `ARIMAModel.predict`:
a fallback chain whose first step always attempts the default order
`(5, 1, 0)`. -/
def ARIMAModel.predictSpecChain (fit : ARIMAOrder → Option (List ℚ))
    (es : Option (List ℚ)) : Except String (List ℚ) :=
  match fit (5, 1, 0) with
  | some f => Except.ok f
  | none =>
    match fit (1, 1, 1) with
    | some f => Except.ok f
    | none =>
      match es with
      | some f => Except.ok f
      | none => Except.error "ExponentialSmoothing raised"

/-- A training-time fit oracle where the default order raises and the
minimal order succeeds. -/
def arimaTrainFit : ARIMAOrder → Option (List ℚ) :=
  fun o => if o = (1, 1, 1) then some [1] else none

/-- A predict-time fit oracle where both orders succeed, with
distinguishable forecasts. -/
def arimaPredictFit : ARIMAOrder → Option (List ℚ) :=
  fun o =>
    if o = (5, 1, 0) then some [2]
    else if o = (1, 1, 1) then some [3] else none

/-- C7 counterexample: after a `train` that fell back to `(1, 1, 1)`,
`predict` starts its chain at the mutated `self.order = (1, 1, 1)` and
returns the `(1, 1, 1)` forecast `[3]`, even though fitting the default
order `(5, 1, 0)` would succeed with `[2]` — the chain of the claim,
which always starts at the default order, returns `[2]`. -/
theorem arima_predict_stale_order_counterexample :
    (ARIMAModel.predict arimaPredictFit none
        (ARIMAModel.train arimaTrainFit ARIMAModel.init).1).2 = Except.ok [3] ∧
    ARIMAModel.predictSpecChain arimaPredictFit none = Except.ok [2] ∧
    ([3] : List ℚ) ≠ [2] := by
  refine ⟨rfl, rfl, by simp⟩

/-- C7 (amended): each of `train` and `predict` attempts its fallback
chain strictly in order, each step only if the previous raised —
(1) the model's stored order, which is the default `(5, 1, 0)` on a
freshly constructed model but stays `(1, 1, 1)` once any call has fallen
back; (2) the minimal order `(1, 1, 1)`; (3) for `predict` only, the
additive-trend, no-seasonal exponential smoothing — and a failure of the
final fallback propagates as that variant's failure. -/
theorem arima_fallback_chain (fit : ARIMAOrder → Option (List ℚ))
    (es : Option (List ℚ)) (m : ARIMAModel) :
    ARIMAModel.init.order = (5, 1, 0) ∧
    (∀ f, fit m.order = some f →
      ARIMAModel.train fit m = (m, Except.ok f)) ∧
    (∀ f, fit m.order = none → fit (1, 1, 1) = some f →
      ARIMAModel.train fit m = ({ order := (1, 1, 1) }, Except.ok f)) ∧
    (fit m.order = none → fit (1, 1, 1) = none →
      ARIMAModel.train fit m =
        ({ order := (1, 1, 1) }, Except.error "Не удалось обучить ARIMA")) ∧
    (∀ f, fit m.order = some f →
      ARIMAModel.predict fit es m = (m, Except.ok f)) ∧
    (∀ f, fit m.order = none → fit (1, 1, 1) = some f →
      ARIMAModel.predict fit es m = ({ order := (1, 1, 1) }, Except.ok f)) ∧
    (∀ f, fit m.order = none → fit (1, 1, 1) = none → es = some f →
      ARIMAModel.predict fit es m = ({ order := (1, 1, 1) }, Except.ok f)) ∧
    (fit m.order = none → fit (1, 1, 1) = none → es = none →
      ARIMAModel.predict fit es m =
        ({ order := (1, 1, 1) }, Except.error "ExponentialSmoothing raised")) := by
  refine ⟨rfl, ?_, ?_, ?_, ?_, ?_, ?_, ?_⟩
  · intro f h
    simp only [ARIMAModel.train, h]
  · intro f h1 h2
    simp only [ARIMAModel.train, h1, h2]
  · intro h1 h2
    simp only [ARIMAModel.train, h1, h2]
  · intro f h
    simp only [ARIMAModel.predict, h]
  · intro f h1 h2
    simp only [ARIMAModel.predict, h1, h2]
  · intro f h1 h2 h3
    simp only [ARIMAModel.predict, h1, h2, h3]
  · intro h1 h2 h3
    simp only [ARIMAModel.predict, h1, h2, h3]

/-- Witness for C7 (amended): on a fresh model whose default-order fit
succeeds, `predict` returns that first-stage forecast unchanged and
leaves the order at `(5, 1, 0)`. -/
theorem arima_fallback_chain_witness :
    ARIMAModel.predict arimaPredictFit none ARIMAModel.init =
      (ARIMAModel.init, Except.ok [2]) :=
  (arima_fallback_chain arimaPredictFit none ARIMAModel.init).2.2.2.2.1 [2] rfl

/-! ## models/ml_model.py

`create_features` produces, per row, ten lagged prices, two rolling
means (7/30), a 7-day rolling standard deviation, a 5-day momentum and a
5-day rate of change; the row is embedded as a record.  The sklearn fits
are abstracted as oracles: `fitScaler rows` stands for
`StandardScaler().fit(rows).transform`, `fitForest rows y` for the
fitted `RandomForestRegressor`'s one-row predict. -/

/-- One feature row (`lags = [lag_1, ..., lag_10]`, length 10 in the
pipeline; the rollout definitions do not depend on the length). -/
structure FeatRow where
  lags : List ℚ
  ma_7 : ℚ
  ma_30 : ℚ
  std_7 : ℚ
  momentum : ℚ
  roc : ℚ
deriving DecidableEq, Repr

/-- The lag update of the rollout loop:
`for i in range(10, 1, -1): last_data[lag_i] = last_data[lag_{i-1}]`
then `last_data[lag_1] = next_price` — the new prediction becomes
`lag_1`, every other lag shifts one position, the oldest lag drops. -/
def shiftLags (r : FeatRow) (next_price : ℚ) : FeatRow :=
  { r with lags := next_price :: r.lags.dropLast }

/-- The fitted artifacts held by `MLModel` after `train`:
`self.scaler.transform` and `self.model.predict` on one row. -/
structure MLModel where
  scaler : FeatRow → FeatRow
  forest : FeatRow → ℚ

/-- `split_idx = int(len(X) * (1 - test_size))`. -/
def split_idx (n : ℕ) (test_size : ℚ) : ℕ :=
  (⌊(n : ℚ) * (1 - test_size)⌋).toNat

/-- `MLModel.train` (the fitting part): chronological split of the
feature rows, scaler fit on the training partition only
(`self.scaler.fit_transform(X_train)`), forest fit on the scaled
training partition against the training targets. -/
def MLModel.train (fitScaler : List FeatRow → (FeatRow → FeatRow))
    (fitForest : List FeatRow → List ℚ → (FeatRow → ℚ))
    (rows : List FeatRow) (y : List ℚ) (test_size : ℚ) : MLModel :=
  let k := split_idx rows.length test_size
  let X_train := rows.take k
  let scaler := fitScaler X_train
  { scaler := scaler, forest := fitForest (X_train.map scaler) (y.take k) }

/-- One iteration of `MLModel.predict`'s loop on the current feature
row: scale it, predict `next_price`, shift the lags. -/
def stepRow (m : MLModel) (r : FeatRow) : FeatRow :=
  shiftLags r (m.forest (m.scaler r))

/-- The rollout row before step `k` of `MLModel.predict`'s loop,
starting from the last historical feature row. -/
def rollState (m : MLModel) (last_data : FeatRow) : ℕ → FeatRow
  | 0 => last_data
  | k + 1 => stepRow m (rollState m last_data k)

/-- `MLModel.predict`: recursive multi-step rollout — at each of `days`
steps scale the current row with the fitted scaler, predict one step
with the fitted forest, append the prediction, and update the lags. -/
def MLModel.predict (m : MLModel) : FeatRow → ℕ → List ℚ
  | _, 0 => []
  | last_data, days + 1 =>
    m.forest (m.scaler last_data) ::
      MLModel.predict m (stepRow m last_data) days

/-- `train` followed by `predict` on the same series, as the pipeline
does (`last_data` is the last feature row of `create_features(df)`). -/
def MLModel.trainPredict (fitScaler : List FeatRow → (FeatRow → FeatRow))
    (fitForest : List FeatRow → List ℚ → (FeatRow → ℚ))
    (rows : List FeatRow) (y : List ℚ) (test_size : ℚ)
    (last_data : FeatRow) (days : ℕ) : List ℚ :=
  (MLModel.train fitScaler fitForest rows y test_size).predict last_data days

/-- Follows the claim's words, for comparison with
`MLModel.trainPredict`: identical except that the rows in `predict` are
scaled with a scaler refit on the entire supplied series' feature rows. -/
def MLModel.trainPredictSpecRefit (fitScaler : List FeatRow → (FeatRow → FeatRow))
    (fitForest : List FeatRow → List ℚ → (FeatRow → ℚ))
    (rows : List FeatRow) (y : List ℚ) (test_size : ℚ)
    (last_data : FeatRow) (days : ℕ) : List ℚ :=
  MLModel.predict
    { scaler := fitScaler rows,
      forest := (MLModel.train fitScaler fitForest rows y test_size).forest }
    last_data days

/-- An all-zero feature row. -/
def mlZeroRow : FeatRow :=
  { lags := List.replicate 10 0, ma_7 := 0, ma_30 := 0, std_7 := 0,
    momentum := 0, roc := 0 }

/-- A scaler-fit oracle whose transform records how many rows it was
fit on (distinct data produce distinct transforms, as with a real
standard scaler). -/
def mlExampleScalerFit : List FeatRow → (FeatRow → FeatRow) :=
  fun l r => { r with ma_7 := (l.length : ℚ) }

/-- A forest-fit oracle whose prediction reads the scaled `ma_7`. -/
def mlExampleForestFit : List FeatRow → List ℚ → (FeatRow → ℚ) :=
  fun _ _ r => r.ma_7

theorem ml_split_idx_five : split_idx 5 (1 / 5) = 4 := by
  have h : ((5 : ℕ) : ℚ) * (1 - 1 / 5) = 4 := by norm_num
  rw [split_idx, h]
  rw [show ⌊(4 : ℚ)⌋ = 4 from by norm_num]
  rfl

/-- C2 counterexample: on five feature rows with `test_size = 1/5` the
training partition has four rows, so the scaler used by `predict` was
fit on four rows and the first rollout prediction is 4; a scaler refit
on the entire series (five rows), as the claim says, would predict 5. -/
theorem ml_predict_scaler_counterexample :
    MLModel.trainPredict mlExampleScalerFit mlExampleForestFit
      (List.replicate 5 mlZeroRow) (List.replicate 5 0) (1 / 5) mlZeroRow 1 = [4] ∧
    MLModel.trainPredictSpecRefit mlExampleScalerFit mlExampleForestFit
      (List.replicate 5 mlZeroRow) (List.replicate 5 0) (1 / 5) mlZeroRow 1 = [5] ∧
    ([4] : List ℚ) ≠ [5] := by
  refine ⟨?_, ?_, by simp⟩
  · rw [MLModel.trainPredict, MLModel.train]
    simp only [List.length_replicate, ml_split_idx_five]
    rfl
  · rw [MLModel.trainPredictSpecRefit]
    rfl

/-- Starting the rollout one step later is the same as looking one step
deeper into the rollout. -/
theorem rollState_stepRow (m : MLModel) (last_data : FeatRow) :
    ∀ j, rollState m (stepRow m last_data) j = rollState m last_data (j + 1) := by
  intro j
  induction j with
  | zero => rfl
  | succ j ihj =>
    show stepRow m (rollState m (stepRow m last_data) j) =
      stepRow m (rollState m last_data (j + 1))
    rw [ihj]

/-- The `k`-th rollout prediction applies the fitted forest to the
fitted scaler's transform of the `k`-th rollout row. -/
theorem ml_predict_getD (m : MLModel) : ∀ (days k : ℕ) (last_data : FeatRow), k < days →
    (m.predict last_data days).getD k 0 = m.forest (m.scaler (rollState m last_data k))
  | 0, k, _, h => absurd h (Nat.not_lt_zero k)
  | days + 1, 0, last_data, _ => rfl
  | days + 1, k + 1, last_data, h => by
    have ih := ml_predict_getD m days k (stepRow m last_data)
      (Nat.lt_of_succ_lt_succ h)
    simp only [MLModel.predict, List.getD_cons_succ]
    rw [ih, rollState_stepRow]

/-- C2 (amended): the tree-ensemble `predict` performs a recursive
multi-step rollout in which, at each of the `days` steps, the current
feature row is scaled with the scaler fitted during `train` on the
training partition of the feature rows (the scaler is not refit before
`predict`), the one-step prediction is appended as the new `lag_1` with
all other lag columns shifted by one position, and the rolling-window
and momentum features are frozen at their last historical values rather
than recomputed per step. -/
theorem ml_predict_rollout_spec (fitScaler : List FeatRow → (FeatRow → FeatRow))
    (fitForest : List FeatRow → List ℚ → (FeatRow → ℚ))
    (rows : List FeatRow) (y : List ℚ) (test_size : ℚ)
    (last_data : FeatRow) (days : ℕ) (m : MLModel)
    (hm : m = MLModel.train fitScaler fitForest rows y test_size) :
    m.scaler = fitScaler (rows.take (split_idx rows.length test_size)) ∧
    (∀ k, k < days →
      (MLModel.trainPredict fitScaler fitForest rows y test_size
          last_data days).getD k 0 =
        m.forest (m.scaler (rollState m last_data k))) ∧
    (∀ k, (rollState m last_data (k + 1)).lags =
      m.forest (m.scaler (rollState m last_data k)) ::
        (rollState m last_data k).lags.dropLast) ∧
    (∀ k, (rollState m last_data k).ma_7 = last_data.ma_7 ∧
      (rollState m last_data k).ma_30 = last_data.ma_30 ∧
      (rollState m last_data k).std_7 = last_data.std_7 ∧
      (rollState m last_data k).momentum = last_data.momentum ∧
      (rollState m last_data k).roc = last_data.roc) := by
  subst hm
  refine ⟨rfl, ?_, fun k => rfl, ?_⟩
  · intro k hk
    exact ml_predict_getD _ days k last_data hk
  · intro k
    induction k with
    | zero => exact ⟨rfl, rfl, rfl, rfl, rfl⟩
    | succ k ih => exact ih

/-- Witness for C2 (amended) on the five-row example with
`test_size = 1/5` and a one-step horizon. -/
theorem ml_predict_rollout_spec_witness :
    (MLModel.trainPredict mlExampleScalerFit mlExampleForestFit
        (List.replicate 5 mlZeroRow) (List.replicate 5 0) (1 / 5)
        mlZeroRow 1).getD 0 0 =
      (MLModel.train mlExampleScalerFit mlExampleForestFit
          (List.replicate 5 mlZeroRow) (List.replicate 5 0) (1 / 5)).forest
        ((MLModel.train mlExampleScalerFit mlExampleForestFit
            (List.replicate 5 mlZeroRow) (List.replicate 5 0) (1 / 5)).scaler
          (rollState
            (MLModel.train mlExampleScalerFit mlExampleForestFit
              (List.replicate 5 mlZeroRow) (List.replicate 5 0) (1 / 5))
            mlZeroRow 0)) :=
  (ml_predict_rollout_spec mlExampleScalerFit mlExampleForestFit
    (List.replicate 5 mlZeroRow) (List.replicate 5 0) (1 / 5) mlZeroRow 1
    _ rfl).2.1 0 (by norm_num)

end StockPipeline
